import Mathlib

/-!
Verification of the Bezier curve fitter (qwt_bezier_curve_fitter.cpp).

The development shallowly embeds the source in Lean: `QPointF` becomes
`Point` over the reals, `QwtInterval` becomes a pair of reals, `qSqrt`
becomes `Real.sqrt`, and every raw array access of the stateless fit
function is embedded through `Option`-returning indexing, so that an
out-of-bounds access is observable as `none`.  The external collaborator
`QwtBezierSpline` (its implementation file is not part of the sources
here) is modelled from the design document: its validity test and its
point evaluation are parameters, and its load/reset lifecycle is an
explicit state.
-/

noncomputable section

open Classical

/-- A 2-D sample point (`QPointF`): real x and y coordinates. -/
@[ext]
structure Point where
  x : ℝ
  y : ℝ

/-- The pair `(minValue, maxValue)` of reals that `qwtBezierInterval`
returns (the `QwtInterval` constructor stores its two arguments). -/
structure QwtInterval where
  minValue : ℝ
  maxValue : ℝ

/-- `qwtLineLength`: Euclidean distance between two points. -/
def qwtLineLength (pStart pEnd : Point) : ℝ :=
  let dx := pStart.x - pEnd.x
  let dy := pStart.y - pEnd.y
  Real.sqrt (dx * dx + dy * dy)

/-- The scale-factor selection block of `qwtBezierInterval`, extracted as a
function returning `(s1, s2)`: chord lengths `d02 = d(p0,p2)`,
`d13 = d(p1,p3)`, central half-length `d12_2 = 0.5 * d(p1,p2)`, booleans
`b1 = d02/6 < d12_2`, `b2 = d13/6 < d12_2`, and the four-way branch of the
source. -/
def qwtBezierScales (p0 p1 p2 p3 : Point) : ℝ × ℝ :=
  let d02 := qwtLineLength p0 p2
  let d13 := qwtLineLength p1 p3
  let d12_2 := 0.5 * qwtLineLength p1 p2
  if d02 / 6 < d12_2 ∧ d13 / 6 < d12_2 then
    (if p0 ≠ p1 then 1 / 6 else 1 / 3, if p2 ≠ p3 then 1 / 6 else 1 / 3)
  else if ¬(d02 / 6 < d12_2) ∧ d13 / 6 < d12_2 then
    (d12_2 / d02, d12_2 / d02)
  else if d02 / 6 < d12_2 ∧ ¬(d13 / 6 < d12_2) then
    (d12_2 / d13, d12_2 / d13)
  else
    (d12_2 / d02, d12_2 / d13)

/-- `qwtBezierInterval`: tangent-like values `y1 = p1.y + (p2.y - p0.y)*s1`,
`y2 = p2.y + (p1.y - p3.y)*s2`, returned as the interval `(3*y1, 3*y2)`. -/
def qwtBezierInterval (p0 p1 p2 p3 : Point) : QwtInterval :=
  let s := qwtBezierScales p0 p1 p2 p3
  let y1 := p1.y + (p2.y - p0.y) * s.1
  let y2 := p2.y + (p1.y - p3.y) * s.2
  ⟨3 * y1, 3 * y2⟩

/-- `qwtBezierValue`: Horner-form cubic evaluation of one segment, exactly
as the source writes it (intermediate products `a1`, `a2`, `a3`). -/
def qwtBezierValue (p1 p2 : Point) (interval : QwtInterval) (x : ℝ) : ℝ :=
  let s1 := (x - p1.x) / (p2.x - p1.x)
  let s2 := 1 - s1
  let a1 := s1 * interval.minValue
  let a2 := s1 * s1 * interval.maxValue
  let a3 := s1 * s1 * s1 * p2.y
  ((s2 * p1.y + a1) * s2 + a2) * s2 + a3

/-- Total point access used in specification statements: the point at
index `i`, defaulting to the origin out of range. -/
def pAt (p : List Point) (i : ℕ) : Point :=
  (p[i]?).getD ⟨0, 0⟩

/-- The input precondition of the fit routines: strictly increasing
x-coordinates. -/
def StrictIncX (p : List Point) : Prop :=
  List.Pairwise (fun a b => a.x < b.x) p

/-- The `while ( x > p[j + 1].x() ) j++;` loop of `qwtFitBezier`,
fuel-indexed; an access past the end of the array yields `none`.  Fuel
`p.length` always suffices for the runs the program performs. -/
def advanceJ (p : List Point) (x : ℝ) : ℕ → ℕ → Option ℕ
  | 0, _ => none
  | fuel + 1, j =>
    match p[j + 1]? with
    | none => none
    | some q => if x > q.x then advanceJ p x fuel (j + 1) else some j

/-- The sampling loop of `qwtFitBezier`: iteration `i` produces the sample
at `x = x1 + i * delta`, advancing the segment cursor `j` and recomputing
the cached interval only when `x` has crossed `p[j+1].x`.  The access
`p[j - 1]` of the recomputation models the C++ `int` index: reaching it
with `j = 0` (index `-1`) is out of bounds, hence `none`. -/
def bezLoop (p : List Point) (x1 delta : ℝ) :
    ℕ → ℕ → ℕ → QwtInterval → Option (List Point)
  | 0, _, _, _ => some []
  | k + 1, i, j, intv =>
    let x := x1 + (i : ℝ) * delta
    match p[j + 1]? with
    | none => none
    | some q =>
      let step : Option (ℕ × QwtInterval) :=
        if x > q.x then
          match advanceJ p x p.length j with
          | none => none
          | some jn =>
            match (if jn = 0 then none else p[jn - 1]?), p[jn]?, p[jn + 1]?,
                p[min (p.length - 1) (jn + 2)]? with
            | some pa, some pb, some pc, some pd =>
              some (jn, qwtBezierInterval pa pb pc pd)
            | _, _, _, _ => none
        else some (j, intv)
      match step with
      | none => none
      | some (jn, intvn) =>
        match p[jn]?, p[jn + 1]? with
        | some a, some b =>
          match bezLoop p x1 delta k (i + 1) jn intvn with
          | none => none
          | some rest => some (⟨x, qwtBezierValue a b intvn x⟩ :: rest)
        | _, _ => none

/-- `qwtFitBezier`: the stateless fit function.  Inputs of size at most 2
are returned unchanged; otherwise `x1`, `x2`, `delta` are computed, the
first interval is seeded with `p0 = p[0]`, and the loop runs `numPoints`
times. -/
def qwtFitBezier (points : List Point) (numPoints : ℕ) : Option (List Point) :=
  if points.length ≤ 2 then some points
  else
    match points[0]?, points[points.length - 1]?, points[1]?, points[2]? with
    | some pf, some pl, some pb, some pc =>
      bezLoop points pf.x ((pl.x - pf.x) / ((numPoints : ℝ) - 1)) numPoints 0 0
        (qwtBezierInterval pf pf pb pc)
    | _, _, _, _ => none

/-- The interval that belongs to segment `j` when recomputed afresh: the
seeded `(p[0], p[0], p[1], p[2])` for the first segment and neighbors
`(j-1, j, j+1, min(n-1, j+2))` otherwise. -/
def naiveIntervalOpt (p : List Point) (j : ℕ) : Option QwtInterval :=
  if j = 0 then
    match p[0]?, p[1]?, p[2]? with
    | some a, some b, some c => some (qwtBezierInterval a a b c)
    | _, _, _ => none
  else
    match p[j - 1]?, p[j]?, p[j + 1]?, p[min (p.length - 1) (j + 2)]? with
    | some pa, some pb, some pc, some pd =>
      some (qwtBezierInterval pa pb pc pd)
    | _, _, _, _ => none

/-- One output sample of the naive variant: locate the enclosing segment
from scratch, rebuild its interval afresh, evaluate the cubic. -/
def naiveSample (p : List Point) (x1 delta : ℝ) (i : ℕ) : Option Point :=
  let x := x1 + (i : ℝ) * delta
  match advanceJ p x p.length 0 with
  | none => none
  | some j =>
    match naiveIntervalOpt p j, p[j]?, p[j + 1]? with
    | some intv, some a, some b => some ⟨x, qwtBezierValue a b intv x⟩
    | _, _, _ => none

/-- The sampling loop of the naive variant. -/
def naiveLoop (p : List Point) (x1 delta : ℝ) : ℕ → ℕ → Option (List Point)
  | 0, _ => some []
  | k + 1, i =>
    match naiveSample p x1 delta i, naiveLoop p x1 delta k (i + 1) with
    | some pt, some rest => some (pt :: rest)
    | _, _ => none

/-- The naive variant of `qwtFitBezier`: identical framing, but every
output sample recomputes the interval of its enclosing segment afresh. -/
def qwtFitBezierNaive (points : List Point) (numPoints : ℕ) :
    Option (List Point) :=
  if points.length ≤ 2 then some points
  else
    match points[0]?, points[points.length - 1]? with
    | some pf, some pl =>
      naiveLoop points pf.x ((pl.x - pf.x) / ((numPoints : ℝ) - 1)) numPoints 0
    | _, _ => none

/-- Modelled from the spec: the lifecycle states of the collaborator
`QwtBezierSpline` (its source file is not among the sources here); per the
design document it is `Idle` until `setPoints` loads a sequence and
`reset` returns it to `Idle`. -/
inductive SplineSt where
  | idle : SplineSt
  | loaded : List Point → SplineSt
deriving DecidableEq

/-- The private data of `QwtBezierSplineCurveFitter`: the owned spline
state and the configured spline size. -/
structure QwtBezierSplineCurveFitter where
  spline : SplineSt
  splineSize : ℤ

namespace QwtBezierSplineCurveFitter

/-- `setSplineSize`: stores `qMax(splineSize, 10)`. -/
def setSplineSize (st : QwtBezierSplineCurveFitter) (n : ℤ) :
    QwtBezierSplineCurveFitter :=
  { st with splineSize := max n 10 }

/-- Modelled from the spec: `fitSpline` of the object-owned fitter.  The
collaborator `QwtBezierSpline` is not among the sources here, so its
validity test `valid` and its evaluation `sval` are parameters; loading
and resetting are the explicit `SplineSt` transitions.  The control flow
(load, early return of the input when invalid, sample `splineSize` evenly
spaced abscissas, reset) follows the source. -/
def fitSpline (valid : List Point → Bool) (sval : List Point → ℝ → ℝ)
    (st : QwtBezierSplineCurveFitter) (points : List Point) :
    QwtBezierSplineCurveFitter × List Point :=
  let st1 : QwtBezierSplineCurveFitter := { st with spline := SplineSt.loaded points }
  if valid points then
    let x1 := (pAt points 0).x
    let x2 := (pAt points (points.length - 1)).x
    let delta := (x2 - x1) / ((st1.splineSize : ℝ) - 1)
    let fitted := (List.range st1.splineSize.toNat).map
      (fun i => (⟨x1 + (i : ℝ) * delta, sval points (x1 + (i : ℝ) * delta)⟩ : Point))
    ({ st1 with spline := SplineSt.idle }, fitted)
  else
    (st1, points)

/-- `fitCurve` of the object-owned fitter: inputs of size at most 2 are
returned unchanged, otherwise `fitSpline` runs. -/
def fitCurve (valid : List Point → Bool) (sval : List Point → ℝ → ℝ)
    (st : QwtBezierSplineCurveFitter) (points : List Point) :
    QwtBezierSplineCurveFitter × List Point :=
  if points.length ≤ 2 then (st, points)
  else fitSpline valid sval st points

end QwtBezierSplineCurveFitter

/-- The private data of `QwtBezierSplineCurveFitter2`: the configured
spline size. -/
structure QwtBezierSplineCurveFitter2 where
  splineSize : ℤ

namespace QwtBezierSplineCurveFitter2

/-- `setSplineSize` of the second fitter: stores `qMax(splineSize, 10)`. -/
def setSplineSize (st : QwtBezierSplineCurveFitter2) (n : ℤ) :
    QwtBezierSplineCurveFitter2 :=
  { st with splineSize := max n 10 }

/-- `fitCurve` of the second fitter: inputs of size at most 2 are returned
unchanged, otherwise `qwtFitBezier` runs with the configured size. -/
def fitCurve (st : QwtBezierSplineCurveFitter2) (points : List Point) :
    Option (List Point) :=
  if points.length ≤ 2 then some points
  else qwtFitBezier points st.splineSize.toNat

end QwtBezierSplineCurveFitter2

/-- The scale selection as the design document words it: chord lengths
`d(p0,p2)` and `d(p1,p3)`, the central half-length `d(p1,p2)/2`, one
boolean condition per side comparing the chord-based estimate `chord/6`
against the half-length (the case table fixes the polarity: a condition
is true when its estimate stays below the half-length), and the four-way
selection of `(s1, s2)`: both true gives the fixed `1/6`, except `1/3` on
a side whose neighbor coincides with the segment endpoint; left false and
right true gives both scales `half/d(p0,p2)`; left true and right false
gives both scales `half/d(p1,p3)`; both false scales each side
independently. -/
def bezierScalesSpec (p0 p1 p2 p3 : Point) : ℝ × ℝ :=
  let chord02 := qwtLineLength p0 p2
  let chord13 := qwtLineLength p1 p3
  let halfLen := qwtLineLength p1 p2 / 2
  if chord02 / 6 < halfLen ∧ chord13 / 6 < halfLen then
    (if p0 = p1 then 1 / 3 else 1 / 6, if p2 = p3 then 1 / 3 else 1 / 6)
  else if ¬(chord02 / 6 < halfLen) ∧ chord13 / 6 < halfLen then
    (halfLen / chord02, halfLen / chord02)
  else if chord02 / 6 < halfLen ∧ ¬(chord13 / 6 < halfLen) then
    (halfLen / chord13, halfLen / chord13)
  else
    (halfLen / chord02, halfLen / chord13)

/-- The cubic evaluation as the design document words it:
`y = ((s2*p1.y + s1*min)*s2 + s1^2*max)*s2 + s1^3*p2.y` with
`s1 = (x - p1.x)/(p2.x - p1.x)` and `s2 = 1 - s1`. -/
def hornerForm (p1 p2 : Point) (interval : QwtInterval) (x : ℝ) : ℝ :=
  let s1 := (x - p1.x) / (p2.x - p1.x)
  let s2 := 1 - s1
  ((s2 * p1.y + s1 * interval.minValue) * s2 + s1 ^ 2 * interval.maxValue) * s2
    + s1 ^ 3 * p2.y

/-! ### Helper lemmas -/

theorem qwtLineLength_pos (p q : Point) (h : p ≠ q) : 0 < qwtLineLength p q := by
  simp only [qwtLineLength]
  apply Real.sqrt_pos.mpr
  rcases eq_or_ne p.x q.x with hx | hx
  · rcases eq_or_ne p.y q.y with hy | hy
    · exact absurd (Point.ext hx hy) h
    · have hpos : 0 < (p.y - q.y) * (p.y - q.y) :=
        mul_self_pos.mpr (sub_ne_zero.mpr hy)
      nlinarith [mul_self_nonneg (p.x - q.x)]
  · have hpos : 0 < (p.x - q.x) * (p.x - q.x) :=
      mul_self_pos.mpr (sub_ne_zero.mpr hx)
    nlinarith [mul_self_nonneg (p.y - q.y)]

theorem pAt_eq_getElem (p : List Point) (i : ℕ) (h : i < p.length) :
    pAt p i = p[i] := by
  simp [pAt, List.getElem?_eq_getElem h]

theorem getElem?_eq_some_pAt (p : List Point) (i : ℕ) (h : i < p.length) :
    p[i]? = some (pAt p i) := by
  rw [List.getElem?_eq_getElem h, pAt_eq_getElem p i h]

theorem pAt_lt_pAt (p : List Point) (hinc : StrictIncX p) {a b : ℕ}
    (hab : a < b) (hb : b < p.length) : (pAt p a).x < (pAt p b).x := by
  have ha : a < p.length := lt_trans hab hb
  rw [pAt_eq_getElem p a ha, pAt_eq_getElem p b hb]
  exact List.pairwise_iff_getElem.mp hinc a b ha hb hab

/-- The while-loop of the fit function: called below an index `jw` whose
right neighbor exists and satisfies `x ≤ p[jw+1].x`, and with enough
fuel, it stops at the first cursor at or after its start whose right
neighbor is not yet passed. -/
theorem advanceJ_found (p : List Point) (x : ℝ) :
    ∀ (fuel j0 jw : ℕ), j0 ≤ jw → jw + 1 < p.length →
      x ≤ (pAt p (jw + 1)).x → jw - j0 < fuel →
      ∃ jr, advanceJ p x fuel j0 = some jr ∧ j0 ≤ jr ∧ jr ≤ jw ∧
        x ≤ (pAt p (jr + 1)).x ∧
        ∀ t, j0 ≤ t → t < jr → (pAt p (t + 1)).x < x := by
  intro fuel
  induction fuel with
  | zero => intro j0 jw h1 h2 h3 h4; omega
  | succ fuel ih =>
    intro j0 jw h1 h2 h3 h4
    have hj0 : j0 + 1 < p.length := by omega
    simp only [advanceJ, getElem?_eq_some_pAt p (j0 + 1) hj0]
    by_cases hgt : x > (pAt p (j0 + 1)).x
    · have hne : j0 ≠ jw := by
        rintro rfl
        exact absurd h3 (not_le.mpr hgt)
      obtain ⟨jr, heq, hle, hlew, hx, hmin⟩ :=
        ih (j0 + 1) jw (by omega) h2 h3 (by omega)
      rw [if_pos hgt]
      refine ⟨jr, heq, by omega, hlew, hx, fun t ht1 ht2 => ?_⟩
      rcases eq_or_lt_of_le ht1 with rfl | hgt2
      · exact hgt
      · exact hmin t (by omega) ht2
    · rw [if_neg hgt]
      exact ⟨j0, rfl, le_refl _, h1, not_lt.mp hgt,
        fun t ht1 ht2 => by omega⟩

/-- Two cursors at or after `lo` that both sit on a not-yet-passed right
neighbor and are both minimal from `lo` coincide. -/
theorem least_seg_unique (p : List Point) (x : ℝ) (lo j1 j2 : ℕ)
    (h1a : lo ≤ j1) (h1b : x ≤ (pAt p (j1 + 1)).x)
    (h1c : ∀ t, lo ≤ t → t < j1 → (pAt p (t + 1)).x < x)
    (h2a : lo ≤ j2) (h2b : x ≤ (pAt p (j2 + 1)).x)
    (h2c : ∀ t, lo ≤ t → t < j2 → (pAt p (t + 1)).x < x) :
    j1 = j2 := by
  rcases lt_trichotomy j1 j2 with h | h | h
  · exact absurd h1b (not_le.mpr (h2c j1 h1a h))
  · exact h
  · exact absurd h2b (not_le.mpr (h1c j2 h2a h))

theorem advanceJ_from_zero (p : List Point) (x : ℝ) (j : ℕ)
    (hn : 3 ≤ p.length) (hj1 : j + 1 < p.length)
    (hxn : x ≤ (pAt p (p.length - 1)).x)
    (hxj : x ≤ (pAt p (j + 1)).x)
    (hmin : ∀ t, t < j → (pAt p (t + 1)).x < x) :
    advanceJ p x p.length 0 = some j := by
  obtain ⟨jr, hadv, h0, hw, hxr, hminr⟩ :=
    advanceJ_found p x p.length 0 (p.length - 2) (by omega) (by omega)
      (by rw [show p.length - 2 + 1 = p.length - 1 by omega]; exact hxn)
      (by omega)
  have heq : jr = j :=
    least_seg_unique p x 0 jr j h0 hxr (fun t ht htl => hminr t ht htl)
      (by omega) hxj (fun t _ htl => hmin t htl)
  rw [heq] at hadv
  exact hadv

theorem naiveIntervalOpt_zero (p : List Point) (hn : 3 ≤ p.length) :
    naiveIntervalOpt p 0 =
      some (qwtBezierInterval (pAt p 0) (pAt p 0) (pAt p 1) (pAt p 2)) := by
  simp only [naiveIntervalOpt, eq_self_iff_true, if_true,
    getElem?_eq_some_pAt p 0 (by omega), getElem?_eq_some_pAt p 1 (by omega),
    getElem?_eq_some_pAt p 2 (by omega)]

theorem naiveIntervalOpt_pos (p : List Point) (j : ℕ) (hj : 1 ≤ j)
    (hj1 : j + 1 < p.length) :
    naiveIntervalOpt p j =
      some (qwtBezierInterval (pAt p (j - 1)) (pAt p j) (pAt p (j + 1))
        (pAt p (min (p.length - 1) (j + 2)))) := by
  have h0 : ¬ j = 0 := by omega
  simp only [naiveIntervalOpt, if_neg h0,
    getElem?_eq_some_pAt p (j - 1) (by omega),
    getElem?_eq_some_pAt p j (by omega),
    getElem?_eq_some_pAt p (j + 1) hj1,
    getElem?_eq_some_pAt p (min (p.length - 1) (j + 2)) (by omega)]

theorem naiveSample_eq_of (p : List Point) (x1 delta : ℝ) (i j : ℕ)
    (hj1 : j + 1 < p.length)
    (hadv : advanceJ p (x1 + (i : ℝ) * delta) p.length 0 = some j)
    (intv : QwtInterval) (hintv : naiveIntervalOpt p j = some intv) :
    naiveSample p x1 delta i =
      some ⟨x1 + (i : ℝ) * delta,
        qwtBezierValue (pAt p j) (pAt p (j + 1)) intv
          (x1 + (i : ℝ) * delta)⟩ := by
  simp only [naiveSample, hadv, hintv,
    getElem?_eq_some_pAt p j (by omega), getElem?_eq_some_pAt p (j + 1) hj1]

theorem naiveSample_some (p : List Point) (x1 delta : ℝ) (i : ℕ)
    (hn : 3 ≤ p.length)
    (hx : x1 + (i : ℝ) * delta ≤ (pAt p (p.length - 1)).x) :
    ∃ pt, naiveSample p x1 delta i = some pt ∧
      pt.x = x1 + (i : ℝ) * delta := by
  obtain ⟨jr, hadv, h0, hw, hxr, hminr⟩ :=
    advanceJ_found p (x1 + (i : ℝ) * delta) p.length 0 (p.length - 2)
      (by omega) (by omega)
      (by rw [show p.length - 2 + 1 = p.length - 1 by omega]; exact hx)
      (by omega)
  have hjr1 : jr + 1 < p.length := by omega
  obtain ⟨intv, hintv⟩ : ∃ intv, naiveIntervalOpt p jr = some intv := by
    rcases Nat.eq_zero_or_pos jr with rfl | hpos
    · exact ⟨_, naiveIntervalOpt_zero p hn⟩
    · exact ⟨_, naiveIntervalOpt_pos p jr hpos hjr1⟩
  exact ⟨_, naiveSample_eq_of p x1 delta i jr hjr1 hadv intv hintv, rfl⟩

theorem naiveLoop_props (p : List Point) (x1 delta : ℝ) (m : ℕ)
    (hn : 3 ≤ p.length)
    (hxle : ∀ t : ℕ, t < m →
      x1 + (t : ℝ) * delta ≤ (pAt p (p.length - 1)).x) :
    ∀ k i, i + k ≤ m →
      ∃ out, naiveLoop p x1 delta k i = some out ∧ out.length = k ∧
        ∀ t, t < k → (pAt out t).x = x1 + ((i + t : ℕ) : ℝ) * delta := by
  intro k
  induction k with
  | zero =>
    intro i hi
    exact ⟨[], rfl, rfl, fun t ht => absurd ht (by omega)⟩
  | succ k ih =>
    intro i hi
    obtain ⟨pt, hpt, hptx⟩ :=
      naiveSample_some p x1 delta i hn (hxle i (by omega))
    obtain ⟨out, hout, hlen, hval⟩ := ih (i + 1) (by omega)
    refine ⟨pt :: out, ?_, by simp [hlen], ?_⟩
    · simp only [naiveLoop, hpt, hout]
    · intro t ht
      cases t with
      | zero => simpa [pAt] using hptx
      | succ t2 =>
        have hv := hval t2 (by omega)
        have harith : i + 1 + t2 = i + (t2 + 1) := by omega
        rw [harith] at hv
        simpa [pAt] using hv

/-- The central loop invariant: started at a cursor `j` that is minimal
for the current sample abscissa, with the freshly recomputed interval of
segment `j` cached, the segment-cached loop agrees with the loop that
recomputes the interval of the enclosing segment for every sample. -/
theorem bezLoop_eq_naiveLoop (p : List Point) (hn : 3 ≤ p.length)
    (x1 delta : ℝ) (hdelta : 0 ≤ delta) (m : ℕ)
    (hxle : ∀ t : ℕ, t < m →
      x1 + (t : ℝ) * delta ≤ (pAt p (p.length - 1)).x) :
    ∀ k i j intv, i + k ≤ m → j + 2 ≤ p.length →
      (∀ t, t < j → (pAt p (t + 1)).x < x1 + (i : ℝ) * delta) →
      naiveIntervalOpt p j = some intv →
      bezLoop p x1 delta k i j intv = naiveLoop p x1 delta k i := by
  intro k
  induction k with
  | zero => intro i j intv _ _ _ _; rfl
  | succ k ih =>
    intro i j intv hik hj2 hleast hintv
    have hxle_i : x1 + (i : ℝ) * delta ≤ (pAt p (p.length - 1)).x :=
      hxle i (by omega)
    have hj1 : j + 1 < p.length := by omega
    have hstep : ∀ t : ℕ, t < j →
        (pAt p (t + 1)).x < x1 + ((i + 1 : ℕ) : ℝ) * delta := by
      intro t ht
      have h1 := hleast t ht
      have h2 : x1 + (i : ℝ) * delta ≤ x1 + ((i + 1 : ℕ) : ℝ) * delta := by
        push_cast
        nlinarith
      linarith
    simp only [bezLoop, naiveLoop, getElem?_eq_some_pAt p (j + 1) hj1]
    by_cases hgt : x1 + (i : ℝ) * delta > (pAt p (j + 1)).x
    · -- the sample has crossed the segment: advance and recompute
      obtain ⟨jr, hadv, hjle, hjw, hxr, hminr⟩ :=
        advanceJ_found p (x1 + (i : ℝ) * delta) p.length j (p.length - 2)
          (by omega) (by omega)
          (by rw [show p.length - 2 + 1 = p.length - 1 by omega]
              exact hxle_i)
          (by omega)
      have hjlt : j < jr := by
        rcases eq_or_lt_of_le hjle with rfl | h
        · exact absurd hxr (not_le.mpr hgt)
        · exact h
      have hminfull : ∀ t, t < jr → (pAt p (t + 1)).x <
          x1 + (i : ℝ) * delta := by
        intro t ht
        rcases lt_or_le t j with h | h
        · exact hleast t h
        · exact hminr t h ht
      have hjr1 : jr + 1 < p.length := by omega
      have hintvr := naiveIntervalOpt_pos p jr (by omega) hjr1
      have hadv0 : advanceJ p (x1 + (i : ℝ) * delta) p.length 0 = some jr :=
        advanceJ_from_zero p (x1 + (i : ℝ) * delta) jr hn hjr1 hxle_i hxr
          hminfull
      have hns := naiveSample_eq_of p x1 delta i jr hjr1 hadv0 _ hintvr
      have hminstep : ∀ t : ℕ, t < jr →
          (pAt p (t + 1)).x < x1 + ((i + 1 : ℕ) : ℝ) * delta := by
        intro t ht
        have h1 := hminfull t ht
        have h2 : x1 + (i : ℝ) * delta ≤ x1 + ((i + 1 : ℕ) : ℝ) * delta := by
          push_cast
          nlinarith
        linarith
      have hrec := ih (i + 1) jr _ (by omega) (by omega) hminstep hintvr
      simp only [if_pos hgt, hadv, if_neg (show ¬ jr = 0 by omega),
        getElem?_eq_some_pAt p (jr - 1) (by omega),
        getElem?_eq_some_pAt p jr (by omega),
        getElem?_eq_some_pAt p (jr + 1) hjr1,
        getElem?_eq_some_pAt p (min (p.length - 1) (jr + 2)) (by omega),
        hrec, hns]
      cases naiveLoop p x1 delta k (i + 1) <;> rfl
    · -- still inside the current segment: cursor and interval are reused
      have hxj : x1 + (i : ℝ) * delta ≤ (pAt p (j + 1)).x := not_lt.mp hgt
      have hadv0 : advanceJ p (x1 + (i : ℝ) * delta) p.length 0 = some j :=
        advanceJ_from_zero p (x1 + (i : ℝ) * delta) j hn hj1 hxle_i hxj
          hleast
      have hns := naiveSample_eq_of p x1 delta i j hj1 hadv0 intv hintv
      have hrec := ih (i + 1) j intv (by omega) hj2 hstep hintv
      simp only [if_neg hgt, getElem?_eq_some_pAt p j (by omega),
        getElem?_eq_some_pAt p (j + 1) hj1, hrec, hns]
      cases naiveLoop p x1 delta k (i + 1) <;> rfl

theorem qwtFitBezier_eq_loop (p : List Point) (m : ℕ) (hn : 3 ≤ p.length) :
    qwtFitBezier p m = bezLoop p (pAt p 0).x
      (((pAt p (p.length - 1)).x - (pAt p 0).x) / ((m : ℝ) - 1)) m 0 0
      (qwtBezierInterval (pAt p 0) (pAt p 0) (pAt p 1) (pAt p 2)) := by
  simp only [qwtFitBezier, if_neg (show ¬ p.length ≤ 2 by omega),
    getElem?_eq_some_pAt p 0 (by omega),
    getElem?_eq_some_pAt p (p.length - 1) (by omega),
    getElem?_eq_some_pAt p 1 (by omega), getElem?_eq_some_pAt p 2 (by omega)]

theorem qwtFitBezierNaive_eq_loop (p : List Point) (m : ℕ)
    (hn : 3 ≤ p.length) :
    qwtFitBezierNaive p m = naiveLoop p (pAt p 0).x
      (((pAt p (p.length - 1)).x - (pAt p 0).x) / ((m : ℝ) - 1)) m 0 := by
  simp only [qwtFitBezierNaive, if_neg (show ¬ p.length ≤ 2 by omega),
    getElem?_eq_some_pAt p 0 (by omega),
    getElem?_eq_some_pAt p (p.length - 1) (by omega)]

theorem fit_context (p : List Point) (m : ℕ) (hn : 3 ≤ p.length)
    (hinc : StrictIncX p) (hm : 2 ≤ m) :
    0 < ((pAt p (p.length - 1)).x - (pAt p 0).x) / ((m : ℝ) - 1) ∧
    ∀ t : ℕ, t < m → (pAt p 0).x + (t : ℝ) *
        (((pAt p (p.length - 1)).x - (pAt p 0).x) / ((m : ℝ) - 1)) ≤
      (pAt p (p.length - 1)).x := by
  have hx12 : (pAt p 0).x < (pAt p (p.length - 1)).x :=
    pAt_lt_pAt p hinc (by omega) (by omega)
  have hm1 : (0 : ℝ) < (m : ℝ) - 1 := by
    have h2m : (2 : ℝ) ≤ (m : ℝ) := by exact_mod_cast hm
    linarith
  have hdpos : 0 < ((pAt p (p.length - 1)).x - (pAt p 0).x) / ((m : ℝ) - 1) :=
    div_pos (by linarith) hm1
  refine ⟨hdpos, fun t ht => ?_⟩
  have htle : (t : ℝ) ≤ (m : ℝ) - 1 := by
    have ht1 : t + 1 ≤ m := ht
    have : ((t : ℕ) : ℝ) + 1 ≤ (m : ℝ) := by exact_mod_cast ht1
    linarith
  have hlast : (pAt p 0).x + ((m : ℝ) - 1) *
      (((pAt p (p.length - 1)).x - (pAt p 0).x) / ((m : ℝ) - 1)) =
      (pAt p (p.length - 1)).x := by
    have hne : (m : ℝ) - 1 ≠ 0 := ne_of_gt hm1
    field_simp
  nlinarith [mul_le_mul_of_nonneg_right htle hdpos.le]

theorem fitBezier_full (p : List Point) (m : ℕ) (hn : 3 ≤ p.length)
    (hinc : StrictIncX p) (hm : 2 ≤ m) :
    ∃ out, qwtFitBezier p m = some out ∧
      qwtFitBezierNaive p m = some out ∧ out.length = m ∧
      ∀ t, t < m → (pAt out t).x = (pAt p 0).x + (t : ℝ) *
        (((pAt p (p.length - 1)).x - (pAt p 0).x) / ((m : ℝ) - 1)) := by
  obtain ⟨hdpos, hxle⟩ := fit_context p m hn hinc hm
  obtain ⟨out, hout, hlen, hval⟩ :=
    naiveLoop_props p (pAt p 0).x
      (((pAt p (p.length - 1)).x - (pAt p 0).x) / ((m : ℝ) - 1)) m hn hxle
      m 0 (by omega)
  have heq := bezLoop_eq_naiveLoop p hn (pAt p 0).x
    (((pAt p (p.length - 1)).x - (pAt p 0).x) / ((m : ℝ) - 1)) hdpos.le m
    hxle m 0 0 _ (by omega) (by omega) (fun t ht => absurd ht (by omega))
    (naiveIntervalOpt_zero p hn)
  refine ⟨out, ?_, ?_, hlen, fun t ht => ?_⟩
  · rw [qwtFitBezier_eq_loop p m hn, heq]
    exact hout
  · rw [qwtFitBezierNaive_eq_loop p m hn]
    exact hout
  · have hv := hval t ht
    simpa using hv

theorem lineLen_00_11 : qwtLineLength ⟨0, 0⟩ ⟨1, 1⟩ = Real.sqrt 2 := by
  simp only [qwtLineLength]
  norm_num

theorem lineLen_11_22 : qwtLineLength ⟨1, 1⟩ ⟨2, 2⟩ = Real.sqrt 2 := by
  simp only [qwtLineLength]
  norm_num

theorem lineLen_00_22 : qwtLineLength ⟨0, 0⟩ ⟨2, 2⟩ = Real.sqrt 8 := by
  simp only [qwtLineLength]
  norm_num

theorem sqrt8_eq : Real.sqrt 8 = 2 * Real.sqrt 2 := by
  rw [show (8 : ℝ) = 2 ^ 2 * 2 by norm_num, Real.sqrt_mul (by positivity) 2,
    Real.sqrt_sq (by norm_num : (0 : ℝ) ≤ 2)]

theorem sqrt2_pos : 0 < Real.sqrt 2 := Real.sqrt_pos.mpr (by norm_num)

/-- The seeded first interval of the collinear input. -/
theorem intvA : qwtBezierInterval ⟨0, 0⟩ ⟨0, 0⟩ ⟨1, 1⟩ ⟨2, 2⟩ = ⟨1, 2⟩ := by
  have hs := sqrt2_pos
  have hb1 : Real.sqrt 2 / 6 < 0.5 * Real.sqrt 2 := by linarith
  have hb2 : Real.sqrt 8 / 6 < 0.5 * Real.sqrt 2 := by rw [sqrt8_eq]; linarith
  simp only [qwtBezierInterval, qwtBezierScales, lineLen_00_11, lineLen_00_22]
  rw [if_pos ⟨hb1, hb2⟩]
  norm_num [Point.mk.injEq, QwtInterval.mk.injEq]

/-- The recomputed second interval of the collinear input. -/
theorem intvB : qwtBezierInterval ⟨0, 0⟩ ⟨1, 1⟩ ⟨2, 2⟩ ⟨2, 2⟩ = ⟨4, 5⟩ := by
  have hs := sqrt2_pos
  have hb1 : Real.sqrt 8 / 6 < 0.5 * Real.sqrt 2 := by rw [sqrt8_eq]; linarith
  have hb2 : Real.sqrt 2 / 6 < 0.5 * Real.sqrt 2 := by linarith
  simp only [qwtBezierInterval, qwtBezierScales, lineLen_00_22, lineLen_11_22]
  rw [if_pos ⟨hb1, hb2⟩]
  norm_num [Point.mk.injEq, QwtInterval.mk.injEq]

/-! ### Claim theorems -/

/-- C5: on the collinear input `[(0,0), (1,1), (2,2)]` with sample count 5
the stateless fit returns the five points at `x = 0, 1/2, 1, 3/2, 2` with
`y = x` at every sample. -/
theorem fitBezier_collinear_exact :
    qwtFitBezier [⟨0, 0⟩, ⟨1, 1⟩, ⟨2, 2⟩] 5 =
      some [⟨0, 0⟩, ⟨1 / 2, 1 / 2⟩, ⟨1, 1⟩, ⟨3 / 2, 3 / 2⟩, ⟨2, 2⟩] := by
  norm_num [qwtFitBezier, bezLoop, advanceJ, qwtBezierValue, intvA, intvB,
    Point.mk.injEq]

/-- C1: the scale-factor selection of the Bezier interval constructor is
exactly the four-case table of the specification: condition per side
comparing the chord-based estimate with the central half-length (true
when the estimate stays below it, as the case table dictates), fixed
`1/6` when both hold with `1/3` on a side whose neighbor point coincides
with the segment endpoint, the shared ratio `half/chord` when exactly one
holds, and independent ratios when neither holds. -/
theorem bezierScales_matches_spec (p0 p1 p2 p3 : Point) :
    qwtBezierScales p0 p1 p2 p3 = bezierScalesSpec p0 p1 p2 p3 := by
  simp only [qwtBezierScales, bezierScalesSpec]
  rw [show (0.5 : ℝ) * qwtLineLength p1 p2 = qwtLineLength p1 p2 / 2 by ring]
  by_cases h01 : p0 = p1 <;> by_cases h23 : p2 = p3 <;> simp [h01, h23]

/-- C3: an input of size at most 2 is returned unchanged by the stateless
fit function and by both fitter variants, for every sample count and
every configured spline size. -/
theorem fit_small_input_identity (points : List Point)
    (h : points.length ≤ 2) :
    (∀ m : ℕ, qwtFitBezier points m = some points) ∧
    (∀ (valid : List Point → Bool) (sval : List Point → ℝ → ℝ)
        (st : QwtBezierSplineCurveFitter),
      (QwtBezierSplineCurveFitter.fitCurve valid sval st points).2 = points) ∧
    (∀ st2 : QwtBezierSplineCurveFitter2, st2.fitCurve points = some points) := by
  refine ⟨fun m => ?_, fun valid sval st => ?_, fun st2 => ?_⟩ <;>
    simp [qwtFitBezier, QwtBezierSplineCurveFitter.fitCurve,
      QwtBezierSplineCurveFitter2.fitCurve, h]

theorem fit_small_input_identity_witness :
    qwtFitBezier [⟨0, 0⟩] 7 = some [⟨0, 0⟩] :=
  (fit_small_input_identity [⟨0, 0⟩] (by simp)).1 7

/-- C6: `setSplineSize n` stores `max n 10` in both fitter variants, so
every request below 10 yields exactly 10, and setting 250 twice yields
250. -/
theorem setSplineSize_clamp_idem (n : ℤ) (s1 : QwtBezierSplineCurveFitter)
    (s2 : QwtBezierSplineCurveFitter2) :
    ((s1.setSplineSize n).splineSize = max n 10 ∧
      (s2.setSplineSize n).splineSize = max n 10) ∧
    (n ≤ 9 → (s1.setSplineSize n).splineSize = 10 ∧
      (s2.setSplineSize n).splineSize = 10) ∧
    (((s1.setSplineSize 250).setSplineSize 250).splineSize = 250 ∧
      ((s2.setSplineSize 250).setSplineSize 250).splineSize = 250) := by
  refine ⟨⟨rfl, rfl⟩, fun hn => ⟨?_, ?_⟩, ?_, ?_⟩ <;>
    simp [QwtBezierSplineCurveFitter.setSplineSize,
      QwtBezierSplineCurveFitter2.setSplineSize] <;> omega

theorem setSplineSize_clamp_idem_witness :
    (QwtBezierSplineCurveFitter.setSplineSize ⟨SplineSt.idle, 250⟩ 5).splineSize = 10 ∧
    (QwtBezierSplineCurveFitter2.setSplineSize ⟨250⟩ 5).splineSize = 10 :=
  (setSplineSize_clamp_idem 5 ⟨SplineSt.idle, 250⟩ ⟨250⟩).2.1 (by norm_num)

/-- C7: for segment endpoints with distinct abscissas the cubic evaluator
returns exactly the Horner-form value
`((s2*p1.y + s1*min)*s2 + s1^2*max)*s2 + s1^3*p2.y` with
`s1 = (x - p1.x)/(p2.x - p1.x)`, `s2 = 1 - s1`. -/
theorem bezierValue_horner (p1 p2 : Point) (interval : QwtInterval) (x : ℝ)
    (h : p1.x ≠ p2.x) :
    qwtBezierValue p1 p2 interval x = hornerForm p1 p2 interval x := by
  simp only [qwtBezierValue, hornerForm]
  ring

theorem bezierValue_horner_witness :
    qwtBezierValue ⟨0, 0⟩ ⟨1, 1⟩ ⟨1, 2⟩ (1 / 2) =
      hornerForm ⟨0, 0⟩ ⟨1, 1⟩ ⟨1, 2⟩ (1 / 2) :=
  bezierValue_horner ⟨0, 0⟩ ⟨1, 1⟩ ⟨1, 2⟩ (1 / 2) (by norm_num)

/-- C8 counterexample: it is not true that every `fitCurve` call of the
object-owned fitter on an input of size at least 3 leaves the spline
state reset: a collaborator that reports the loaded points invalid makes
`fitSpline` return the input through the fallback path with the state
still loaded. -/
theorem fitSpline_reset_cex :
    ¬ (∀ (valid : List Point → Bool) (sval : List Point → ℝ → ℝ)
        (st : QwtBezierSplineCurveFitter) (points : List Point),
        3 ≤ points.length →
        (QwtBezierSplineCurveFitter.fitCurve valid sval st points).1.spline =
          SplineSt.idle) := by
  intro hclaim
  have h := hclaim (fun _ => false) (fun _ _ => 0) ⟨SplineSt.idle, 250⟩
    [⟨0, 0⟩, ⟨1, 1⟩, ⟨2, 2⟩] (by simp)
  simp [QwtBezierSplineCurveFitter.fitCurve,
    QwtBezierSplineCurveFitter.fitSpline] at h

/-- C8 as amended: on an input of size at least 3 the object-owned
fitter's spline state is reset (idle) when the call returns through the
sampling path, but on the fallback path where the collaborator reports
the loaded points invalid the state remains loaded: the early return
skips the reset. -/
theorem fitSpline_reset_amended (valid : List Point → Bool)
    (sval : List Point → ℝ → ℝ) (st : QwtBezierSplineCurveFitter)
    (points : List Point) (h : 3 ≤ points.length) :
    (valid points = true →
      (QwtBezierSplineCurveFitter.fitCurve valid sval st points).1.spline =
        SplineSt.idle) ∧
    (valid points = false →
      (QwtBezierSplineCurveFitter.fitCurve valid sval st points).1.spline =
        SplineSt.loaded points) := by
  have hlen : ¬ points.length ≤ 2 := by omega
  constructor <;> intro hv <;>
    simp [QwtBezierSplineCurveFitter.fitCurve,
      QwtBezierSplineCurveFitter.fitSpline, hlen, hv]

theorem fitSpline_reset_amended_witness :
    (QwtBezierSplineCurveFitter.fitCurve (fun _ => true) (fun _ _ => 0)
        ⟨SplineSt.idle, 250⟩ [⟨0, 0⟩, ⟨1, 1⟩, ⟨2, 2⟩]).1.spline =
      SplineSt.idle :=
  (fitSpline_reset_amended (fun _ => true) (fun _ _ => 0) ⟨SplineSt.idle, 250⟩
    [⟨0, 0⟩, ⟨1, 1⟩, ⟨2, 2⟩] (by simp)).1 rfl

/-- C9 counterexample: a degenerate first-segment seed `p0 = p1` with all
remaining points distinct does not always select the `1/3` scale: with
`p3` far away the right condition fails and the `b1 ∧ ¬b2` branch yields
the ratio scale instead (here `1/200`). -/
theorem bezierScales_third_cex :
    ¬ (∀ p0 p1 p2 p3 : Point, p0 = p1 → p1 ≠ p2 → p2 ≠ p3 → p1 ≠ p3 →
        (qwtBezierScales p0 p1 p2 p3).1 = 1 / 3) := by
  intro hclaim
  have e1 : qwtLineLength ⟨0, 0⟩ ⟨1, 0⟩ = 1 := by
    simp only [qwtLineLength]
    norm_num
  have e2 : qwtLineLength ⟨0, 0⟩ ⟨100, 0⟩ = 100 := by
    simp only [qwtLineLength]
    norm_num
    rw [show (10000 : ℝ) = 100 ^ 2 by norm_num,
      Real.sqrt_sq (by norm_num : (0 : ℝ) ≤ 100)]
  have h := hclaim ⟨0, 0⟩ ⟨0, 0⟩ ⟨1, 0⟩ ⟨100, 0⟩ rfl
    (by norm_num [Point.mk.injEq]) (by norm_num [Point.mk.injEq])
    (by norm_num [Point.mk.injEq])
  rw [show (qwtBezierScales ⟨0, 0⟩ ⟨0, 0⟩ ⟨1, 0⟩ ⟨100, 0⟩).1 = 1 / 200 by
    norm_num [qwtBezierScales, e1, e2]] at h
  norm_num at h

/-- C9 as amended: for a degenerate seed `p0 = p1` with `p1 ≠ p2` the left
condition always holds (so the branches dividing by `d(p0,p2)` are never
taken); when the right condition also holds the `1/3` scale is selected
on the left side, and when it fails the selected ratio divides by
`d(p1,p3)`, which is then provably positive — no division by a zero chord
length happens in any reachable branch. -/
theorem bezierScales_degenerate_amended (p0 p1 p2 p3 : Point)
    (h01 : p0 = p1) (h12 : p1 ≠ p2) :
    (qwtLineLength p0 p2 / 6 < 0.5 * qwtLineLength p1 p2) ∧
    (qwtLineLength p1 p3 / 6 < 0.5 * qwtLineLength p1 p2 →
      (qwtBezierScales p0 p1 p2 p3).1 = 1 / 3) ∧
    (¬(qwtLineLength p1 p3 / 6 < 0.5 * qwtLineLength p1 p2) →
      0 < qwtLineLength p1 p3 ∧
      (qwtBezierScales p0 p1 p2 p3).1 =
        0.5 * qwtLineLength p1 p2 / qwtLineLength p1 p3) := by
  subst h01
  have hL : 0 < qwtLineLength p0 p2 := qwtLineLength_pos _ _ h12
  have hb1 : qwtLineLength p0 p2 / 6 < 0.5 * qwtLineLength p0 p2 := by
    linarith
  refine ⟨hb1, fun hb2 => ?_, fun hb2 => ?_⟩
  · simp only [qwtBezierScales]
    rw [if_pos ⟨hb1, hb2⟩]
    simp
  · have hd13 : 0 < qwtLineLength p0 p3 := by
      push_neg at hb2
      linarith
    refine ⟨hd13, ?_⟩
    simp only [qwtBezierScales]
    rw [if_neg (fun hc => hb2 hc.2), if_neg (fun hc => hc.1 hb1),
      if_pos ⟨hb1, hb2⟩]

theorem bezierScales_degenerate_amended_witness :
    qwtLineLength ⟨0, 0⟩ ⟨1, 0⟩ / 6 < 0.5 * qwtLineLength ⟨0, 0⟩ ⟨1, 0⟩ :=
  (bezierScales_degenerate_amended ⟨0, 0⟩ ⟨0, 0⟩ ⟨1, 0⟩ ⟨2, 0⟩ rfl
    (by norm_num [Point.mk.injEq])).1

/-- C2: for an input of size at least 3 with strictly increasing
x-coordinates and a sample count of at least 2, the stateless fit
succeeds with exactly `m` output points, the first output abscissa is the
first input abscissa, the last output abscissa is the last input abscissa
exactly, and the output abscissas are strictly increasing. -/
theorem fitBezier_count_boundaries (p : List Point) (m : ℕ)
    (hn : 3 ≤ p.length) (hinc : StrictIncX p) (hm : 2 ≤ m) :
    ∃ out, qwtFitBezier p m = some out ∧ out.length = m ∧
      (pAt out 0).x = (pAt p 0).x ∧
      (pAt out (m - 1)).x = (pAt p (p.length - 1)).x ∧
      List.Pairwise (fun a b : Point => a.x < b.x) out := by
  obtain ⟨hdpos, hxle⟩ := fit_context p m hn hinc hm
  obtain ⟨out, h1, h2, hlen, hval⟩ := fitBezier_full p m hn hinc hm
  have hm1 : (0 : ℝ) < (m : ℝ) - 1 := by
    have h2m : (2 : ℝ) ≤ (m : ℝ) := by exact_mod_cast hm
    linarith
  refine ⟨out, h1, hlen, ?_, ?_, ?_⟩
  · have hv := hval 0 (by omega)
    simpa using hv
  · have hv := hval (m - 1) (by omega)
    rw [hv]
    rw [Nat.cast_sub (by omega : 1 ≤ m), Nat.cast_one]
    have hne : (m : ℝ) - 1 ≠ 0 := ne_of_gt hm1
    field_simp
  · rw [List.pairwise_iff_getElem]
    intro a b ha hb hab
    have ham : a < m := hlen ▸ ha
    have hbm : b < m := hlen ▸ hb
    rw [← pAt_eq_getElem out a ha, ← pAt_eq_getElem out b hb,
      hval a ham, hval b hbm]
    have hcast : (a : ℝ) < (b : ℝ) := by exact_mod_cast hab
    have := mul_lt_mul_of_pos_right hcast hdpos
    linarith

theorem fitBezier_count_boundaries_witness :
    ∃ out, qwtFitBezier [⟨0, 0⟩, ⟨1, 1⟩, ⟨2, 2⟩] 5 = some out ∧
      out.length = 5 ∧
      (pAt out 0).x = (pAt [⟨0, 0⟩, ⟨1, 1⟩, ⟨2, 2⟩] 0).x ∧
      (pAt out (5 - 1)).x =
        (pAt [⟨0, 0⟩, ⟨1, 1⟩, ⟨2, 2⟩]
          (([⟨0, 0⟩, ⟨1, 1⟩, ⟨2, 2⟩] : List Point).length - 1)).x ∧
      List.Pairwise (fun a b : Point => a.x < b.x) out :=
  fitBezier_count_boundaries [⟨0, 0⟩, ⟨1, 1⟩, ⟨2, 2⟩] 5 (by norm_num)
    (by norm_num [StrictIncX]) (by norm_num)

/-- C4: under the same preconditions the segment-cached stateless fit
returns exactly the same output sequence as the naive variant that
recomputes the Bezier interval of the enclosing segment afresh for every
output sample, seeding with `p0 = p[0]` on the first segment and using
neighbors `(j-1, j, j+1, min(n-1, j+2))` otherwise. -/
theorem fitBezier_eq_naive_refit (p : List Point) (m : ℕ)
    (hn : 3 ≤ p.length) (hinc : StrictIncX p) (hm : 2 ≤ m) :
    qwtFitBezier p m = qwtFitBezierNaive p m := by
  obtain ⟨out, h1, h2, _, _⟩ := fitBezier_full p m hn hinc hm
  rw [h1, h2]

theorem fitBezier_eq_naive_refit_witness :
    qwtFitBezier [⟨0, 0⟩, ⟨1, 1⟩, ⟨2, 2⟩] 5 =
      qwtFitBezierNaive [⟨0, 0⟩, ⟨1, 1⟩, ⟨2, 2⟩] 5 :=
  fitBezier_eq_naive_refit [⟨0, 0⟩, ⟨1, 1⟩, ⟨2, 2⟩] 5 (by norm_num)
    (by norm_num [StrictIncX]) (by norm_num)

/-- C10: under the same preconditions every array access of the stateless
fit is in bounds: the `Option`-indexed embedding never reaches an
out-of-bounds branch, so the whole run returns `some`. -/
theorem fitBezier_total_inbounds (p : List Point) (m : ℕ)
    (hn : 3 ≤ p.length) (hinc : StrictIncX p) (hm : 2 ≤ m) :
    (qwtFitBezier p m).isSome = true := by
  obtain ⟨out, h1, _, _, _⟩ := fitBezier_full p m hn hinc hm
  rw [h1]
  rfl

theorem fitBezier_total_inbounds_witness :
    (qwtFitBezier [⟨0, 0⟩, ⟨1, 1⟩, ⟨2, 2⟩] 5).isSome = true :=
  fitBezier_total_inbounds [⟨0, 0⟩, ⟨1, 1⟩, ⟨2, 2⟩] 5 (by norm_num)
    (by norm_num [StrictIncX]) (by norm_num)

end
